import Mathlib

/-!
Verification of better-chatbot: the workflow orchestration core
(spec sections 3-7) and the file-conversion / file-validation utilities
(`src/lib/ai/file-conversion.ts`, `src/lib/ai/file-support-constants.ts`,
`file-validation.ts`).
-/

/-- A JSON-like value: node outputs and configuration values are
JSON-shaped objects (spec section 3, NodeResult "output object"). -/
inductive JValue where
  | null : JValue
  | bool (b : Bool) : JValue
  | num (n : Int) : JValue
  | str (s : String) : JValue
  | arr (xs : List JValue) : JValue
  | obj (fields : List (String × JValue)) : JValue

mutual

/-- Compact JSON rendering of a value: the "stable, deterministic
representation, e.g., compact JSON for objects" of spec section 4.3. -/
def JValue.stringify : JValue → String
  | .null => "null"
  | .bool b => if b then "true" else "false"
  | .num n => toString n
  | .str s => "\"" ++ s ++ "\""
  | .arr xs => "[" ++ stringifyArr xs ++ "]"
  | .obj fs => "\x7b" ++ stringifyFields fs ++ "\x7d"

/-- Render the elements of a JSON array, comma separated. -/
def stringifyArr : List JValue → String
  | [] => ""
  | [x] => x.stringify
  | x :: xs => x.stringify ++ "," ++ stringifyArr xs

/-- Render the fields of a JSON object, comma separated. -/
def stringifyFields : List (String × JValue) → String
  | [] => ""
  | [(k, v)] => "\"" ++ k ++ "\":" ++ v.stringify
  | (k, v) :: fs => "\"" ++ k ++ "\":" ++ v.stringify ++ "," ++ stringifyFields fs

end

/-- Split a character list at every dot, the character-level behaviour of
`filename.split(".")` for the single-character separator used by the source. -/
def splitDot : List Char → List (List Char)
  | [] => [[]]
  | c :: rest =>
    match splitDot rest with
    | [] => [[]]
    | g :: gs => if c = '.' then [] :: g :: gs else (c :: g) :: gs

/-- Extract file extension from filename
(`getFileExtension`, src/lib/ai/file-support-constants.ts lines 142-145):
lowercase the name, split on dots, and take the last part when there is
more than one (the source's ASCII-relevant lowercasing is modelled with
`Char.toLower`). -/
def getFileExtension (filename : String) : String :=
  let parts := splitDot (filename.data.map Char.toLower)
  if parts.length > 1 then String.mk (parts.getLastD []) else ""

example : getFileExtension "report.XLSX" = "xlsx" := by decide
example : getFileExtension "noext" = "" := by decide
example : getFileExtension "a.b.doc" = "doc" := by decide
example : (JValue.obj [("a", .num 1)]).stringify = "\x7b\"a\":1\x7d" := by rfl

/-! ## File support constants (src/lib/ai/file-support-constants.ts) -/

/-- `BLOCKED_MIME_TYPES` (file-support-constants.ts lines 20-25): binary
Office formats that can never be processed. -/
def BLOCKED_MIME_TYPES : List String :=
  [ "application/vnd.openxmlformats-officedocument.spreadsheetml.sheet"
  , "application/vnd.ms-excel"
  , "application/vnd.openxmlformats-officedocument.wordprocessingml.document"
  , "application/msword" ]

/-- `BLOCKED_EXTENSIONS` (file-support-constants.ts line 30). -/
def BLOCKED_EXTENSIONS : List String := ["xlsx", "xls", "docx", "doc"]

/-- `CONVERTIBLE_MIME_TYPES` (file-support-constants.ts lines 35-59). -/
def CONVERTIBLE_MIME_TYPES : List String :=
  [ "text/csv", "application/json", "text/markdown", "text/md"
  , "text/xml", "application/xml", "text/html", "text/css"
  , "text/x-python", "application/x-python"
  , "text/x-terraform", "application/x-terraform"
  , "text/typescript", "application/typescript"
  , "text/javascript", "application/javascript", "application/x-javascript"
  , "text/x-go", "application/x-go"
  , "text/x-shellscript", "application/x-sh", "text/x-sh" ]

/-- `CONVERTIBLE_EXTENSIONS_TO_LANGUAGE` (file-support-constants.ts
lines 65-86): extension to markdown language identifier. -/
def CONVERTIBLE_EXTENSIONS_TO_LANGUAGE : List (String × String) :=
  [ ("csv", "csv"), ("json", "json"), ("xml", "xml")
  , ("md", "markdown"), ("markdown", "markdown")
  , ("html", "html"), ("htm", "html"), ("css", "css")
  , ("py", "python"), ("ts", "typescript"), ("tsx", "typescript")
  , ("js", "javascript"), ("jsx", "javascript")
  , ("tf", "terraform"), ("go", "go"), ("sh", "bash"), ("bash", "bash") ]

/-- `CONVERTIBLE_EXTENSIONS_TO_LABEL` (file-support-constants.ts
lines 92-113): extension to human-readable label. -/
def CONVERTIBLE_EXTENSIONS_TO_LABEL : List (String × String) :=
  [ ("csv", "CSV"), ("json", "JSON"), ("xml", "XML")
  , ("md", "Markdown"), ("markdown", "Markdown")
  , ("html", "HTML"), ("htm", "HTML"), ("css", "CSS")
  , ("py", "Python"), ("ts", "TypeScript"), ("tsx", "TypeScript")
  , ("js", "JavaScript"), ("jsx", "JavaScript")
  , ("tf", "Terraform"), ("go", "Go"), ("sh", "Bash"), ("bash", "Bash") ]

/-- `UNIVERSALLY_SUPPORTED_MIME_TYPES` (file-support-constants.ts
lines 119-129). -/
def UNIVERSALLY_SUPPORTED_MIME_TYPES : List String :=
  [ "image/jpeg", "image/png", "image/gif", "image/webp"
  , "application/pdf", "text/plain" ]

/-- `PROVIDERS_WITH_FULL_FILE_SUPPORT` (file-support-constants.ts
lines 135-137): only `google` (Gemini). -/
def PROVIDERS_WITH_FULL_FILE_SUPPORT : List String := ["google"]

/-- The property names of `Object.prototype`, inherited by every JS
object literal and therefore matched by the `in` operator alongside the
literal's own keys. -/
def OBJECT_PROTOTYPE_KEYS : List String :=
  [ "constructor", "hasOwnProperty", "isPrototypeOf", "propertyIsEnumerable"
  , "toLocaleString", "toString", "valueOf"
  , "__proto__", "__defineGetter__", "__defineSetter__"
  , "__lookupGetter__", "__lookupSetter__" ]

/-- JS `key in record` on an object literal: the record's own keys, or a
property inherited from `Object.prototype`. -/
def hasKey (l : List (String × String)) (k : String) : Bool :=
  l.any (fun p => p.1 == k) || OBJECT_PROTOTYPE_KEYS.contains k

/-- The string the Node/V8 host produces when a value inherited from
`Object.prototype` is read by `record[key]` and later coerced into a
template string: the `__proto__` accessor yields `Object.prototype`
(coerced `[object Object]`), `constructor` is the `Object` function, and
the remaining inherited properties are native methods. -/
def protoKeyString : String → String
  | "__proto__" => "[object Object]"
  | "constructor" => "function Object() \x7b [native code] \x7d"
  | k => "function " ++ k ++ "() \x7b [native code] \x7d"

/-- JS `record[key]` read under a `key in record` guard, coerced to a
string at the use site: the own value when the key is the literal's own,
else the inherited `Object.prototype` value's coercion. -/
def jsIndexStr (l : List (String × String)) (k : String) : String :=
  (l.lookup k).getD (protoKeyString k)

/-- JS truthiness of an optional string: `undefined` and the empty
string are falsy. -/
def jsTruthy : Option String → Bool
  | some s => !(s == "")
  | none => false

/-! ## File conversion (src/lib/ai/file-conversion.ts) -/

/-- `needsFileConversion` (file-conversion.ts lines 23-50).  The optional
`filename` is `none` for JS `undefined`; the JS truthiness test
`filename && (...)` also rejects the empty string. -/
def needsFileConversion (provider mimeType : String)
    (filename : Option String) : Bool :=
  if provider ∈ PROVIDERS_WITH_FULL_FILE_SUPPORT then
    false
  else if mimeType ∈ CONVERTIBLE_MIME_TYPES then
    true
  else
    match filename with
    | some f =>
      if f ≠ "" ∧ (mimeType = "application/octet-stream" ∨
          mimeType = "text/plain" ∨ mimeType = "") then
        hasKey CONVERTIBLE_EXTENSIONS_TO_LANGUAGE (getFileExtension f)
      else
        false
    | none => false

/-- `content.trim()` of the source, modelled with `String.trim`. -/
def jsTrim (s : String) : String := s.trim

/-- `convertCSVToText` (file-conversion.ts lines 55-66): the header is
chosen by JS truthiness of `filename`, so an empty-string filename gets
the generic header. -/
def convertCSVToText (content : String) (filename : Option String) : String :=
  let header :=
    if jsTruthy filename then "File: " ++ filename.getD "" ++ "\nType: CSV\n\n"
    else "CSV Data:\n\n"
  header ++ "```csv\n" ++ jsTrim content ++ "\n```"

/-- `convertJSONToText` (file-conversion.ts lines 71-88).  `JSON.parse` and
`JSON.stringify(_, null, 2)` are host builtins, passed in as the abstract
collaborators `jsonParse` (returning `none` where `JSON.parse` throws) and
`prettyPrint`; the source's try/catch is the match on `jsonParse content`. -/
def convertJSONToText (jsonParse : String → Option JValue)
    (prettyPrint : JValue → String)
    (content : String) (filename : Option String) : String :=
  match jsonParse content with
  | some parsed =>
    let header :=
      if jsTruthy filename then
        "File: " ++ filename.getD "" ++ "\nType: JSON\n\n"
      else "JSON Data:\n\n"
    header ++ "```json\n" ++ prettyPrint parsed ++ "\n```"
  | none =>
    let header :=
      if jsTruthy filename then
        "File: " ++ filename.getD "" ++ "\nType: JSON (raw)\n\n"
      else "JSON Data:\n\n"
    header ++ "```json\n" ++ content ++ "\n```"

/-- `getLanguageIdentifier` (file-conversion.ts lines 93-118): both
guards are JS truthiness tests, and both lookups are `in`-guarded
indexing. -/
def getLanguageIdentifier (filename : Option String)
    (mimeType : Option String) : String :=
  let fromExt : Option String :=
    if jsTruthy filename then
      let ext := getFileExtension (filename.getD "")
      if hasKey CONVERTIBLE_EXTENSIONS_TO_LANGUAGE ext then
        some (jsIndexStr CONVERTIBLE_EXTENSIONS_TO_LANGUAGE ext)
      else none
    else none
  match fromExt with
  | some lang => lang
  | none =>
    let mimeToLanguage : List (String × String) :=
      [ ("text/html", "html"), ("text/css", "css"), ("text/xml", "xml")
      , ("application/xml", "xml"), ("text/markdown", "markdown")
      , ("text/md", "markdown") ]
    if jsTruthy mimeType && hasKey mimeToLanguage (mimeType.getD "") then
      jsIndexStr mimeToLanguage (mimeType.getD "")
    else "text"

/-- `convertCodeToText` (file-conversion.ts lines 123-131). -/
def convertCodeToText (content : String) (filename : Option String)
    (mimeType : Option String) : String :=
  let language := getLanguageIdentifier filename mimeType
  let header :=
    if jsTruthy filename then "File: " ++ filename.getD "" ++ "\n\n" else ""
  header ++ "```" ++ language ++ "\n" ++ jsTrim content ++ "\n```"

/-- `convertFileToText` (file-conversion.ts lines 136-167): route to the
kind-specific converter; unknown types produce the explanatory note. -/
def convertFileToText (jsonParse : String → Option JValue)
    (prettyPrint : JValue → String)
    (content mimeType : String) (filename : Option String) : String :=
  if mimeType = "text/csv" then
    convertCSVToText content filename
  else if mimeType = "application/json" then
    convertJSONToText jsonParse prettyPrint content filename
  else
    let extension :=
      if jsTruthy filename then getFileExtension (filename.getD "") else ""
    let isConvertible := mimeType ∈ CONVERTIBLE_MIME_TYPES ∨
      hasKey CONVERTIBLE_EXTENSIONS_TO_LANGUAGE extension = true
    if isConvertible then
      convertCodeToText content filename (some mimeType)
    else
      "File: " ++ (if jsTruthy filename then filename.getD "" else "file") ++
        "\nType: " ++ mimeType ++
        "\n\nNote: This file type cannot be directly processed. " ++
        "Please provide the content in a supported format (text, CSV, JSON, etc.)."

/-- A chat model selection (`ChatModel` of app-types/chat). -/
structure ChatModel where
  provider : String
  model : String
  deriving DecidableEq

/-- One part of a `UIMessage`: text parts, file parts (with the fields the
conversion code reads: `mediaType`, `filename`, `url`), and the other part
kinds the code passes through untouched. -/
inductive MsgPart where
  | text (t : String) : MsgPart
  | file (mediaType : Option String) (filename : Option String)
      (url : Option String) : MsgPart
  | otherPart : MsgPart
  deriving DecidableEq

/-- A `UIMessage`: id and parts (the fields the conversion code touches). -/
structure UIMessage where
  id : String
  parts : List MsgPart
  deriving DecidableEq

/-- The error text built in the catch branch of
`processMessagesWithFileConversion` (file-conversion.ts lines 334-341). -/
def conversionErrorText (filename : Option String) (mimeType errMsg : String) :
    String :=
  "[File conversion error: Could not process " ++
    (if jsTruthy filename then filename.getD "" else "file") ++
    " (" ++ mimeType ++ "). " ++ errMsg ++ "]"

/-- `processMessagesWithFileConversion` (file-conversion.ts lines 264-353).
The network fetch (`fetchFileContent`) is the abstract collaborator
`fetchContent`, returning `.error` where the JS helper throws.  Given that
collaborator the function is deterministic and total. -/
def processMessagesWithFileConversion
    (jsonParse : String → Option JValue) (prettyPrint : JValue → String)
    (fetchContent : String → Except String String)
    (messages : List UIMessage) (chatModel : Option ChatModel) :
    List UIMessage :=
  match chatModel with
  | none => messages
  | some cm =>
    if cm.provider ∈ PROVIDERS_WITH_FULL_FILE_SUPPORT then
      messages
    else
      messages.map (fun message =>
        let hasConvertibleFiles := message.parts.any (fun part =>
          match part with
          | .file mediaType filename _ =>
            needsFileConversion cm.provider (mediaType.getD "") filename
          | _ => false)
        if !hasConvertibleFiles then
          message
        else
          { message with parts := message.parts.map (fun part =>
              match part with
              | .file mediaType filename url =>
                let mimeType := mediaType.getD ""
                if !needsFileConversion cm.provider mimeType filename then
                  part
                else
                  match fetchContent (url.getD "") with
                  | .ok fileContent =>
                    .text (convertFileToText jsonParse prettyPrint
                      fileContent mimeType filename)
                  | .error e =>
                    .text (conversionErrorText filename mimeType e)
              | p => p) })

/-! ## File validation (file-validation.ts, the version importing
file-support-constants) -/

/-- `FileValidationResult` (file-validation.ts): either allowed (with an
optional warning) or rejected with an error message. -/
inductive FileValidationResult where
  | allow (warning : Option String) : FileValidationResult
  | reject (error : String) : FileValidationResult
  deriving DecidableEq

/-- The browser `File` fields the validator reads: `name` and `type`. -/
structure BrowserFile where
  name : String
  type : String
  deriving DecidableEq

/-- `isConvertible` (file-validation.ts): convertible by MIME type, or by
extension when the MIME type is generic. -/
def isConvertible (mimeType extension : String) : Bool :=
  if mimeType ∈ CONVERTIBLE_MIME_TYPES then
    true
  else if mimeType = "application/octet-stream" ∨ mimeType = "text/plain" ∨
      mimeType = "" then
    hasKey CONVERTIBLE_EXTENSIONS_TO_LABEL extension
  else
    false

/-- `getFileTypeLabel` (file-validation.ts): extension label first, then
MIME label, else "This". -/
def getFileTypeLabel (mimeType extension : String) : String :=
  if hasKey CONVERTIBLE_EXTENSIONS_TO_LABEL extension then
    jsIndexStr CONVERTIBLE_EXTENSIONS_TO_LABEL extension
  else
    let mimeLabels : List (String × String) :=
      [ ("text/csv", "CSV"), ("application/json", "JSON")
      , ("text/markdown", "Markdown"), ("text/md", "Markdown")
      , ("text/xml", "XML"), ("application/xml", "XML")
      , ("text/html", "HTML"), ("text/css", "CSS") ]
    if hasKey mimeLabels mimeType then jsIndexStr mimeLabels mimeType
    else "This"

/-- `validateFileForModel` (file-validation.ts lines 383-423): the blocked
check (MIME type or extension) comes first, before the full-file-support
provider check; then provider, convertible, universal, and unknown cases,
all of which allow the upload. -/
def validateFileForModel (file : BrowserFile) (model : ChatModel) :
    FileValidationResult :=
  let mimeType := file.type
  let fileName := file.name
  let extension := getFileExtension fileName
  if mimeType ∈ BLOCKED_MIME_TYPES ∨ extension ∈ BLOCKED_EXTENSIONS then
    .reject (fileName ++ " cannot be processed with " ++ model.provider ++
      ". Binary files like Excel (.xlsx) and Word (.docx) documents are not supported. " ++
      "Please export as CSV or plain text instead.")
  else if model.provider ∈ PROVIDERS_WITH_FULL_FILE_SUPPORT then
    .allow none
  else if isConvertible mimeType extension then
    .allow (some (getFileTypeLabel mimeType extension ++
      " file will be converted to plain text for " ++ model.provider ++
      ". If you encounter issues with this conversion, consider using Google Gemini " ++
      "which natively supports more file types."))
  else if mimeType ∈ UNIVERSALLY_SUPPORTED_MIME_TYPES then
    .allow none
  else
    .allow (some ("File type \"" ++ mimeType ++
      "\" is not recognized. This upload may not work as expected with " ++
      model.provider ++ "."))

/-! ## Theorems: file conversion and validation (C8-C10) -/

/-- C8: `needsFileConversion("google", mimeType, filename)` is false for
every MIME type and filename, and `processMessagesWithFileConversion`
returns its input messages unchanged whenever the chat model is absent or
its provider is "google". -/
theorem google_needs_no_conversion :
    (∀ (mimeType : String) (filename : Option String),
      needsFileConversion "google" mimeType filename = false)
    ∧ (∀ (jsonParse : String → Option JValue) (prettyPrint : JValue → String)
        (fetchContent : String → Except String String)
        (messages : List UIMessage),
      processMessagesWithFileConversion jsonParse prettyPrint fetchContent
        messages none = messages)
    ∧ (∀ (jsonParse : String → Option JValue) (prettyPrint : JValue → String)
        (fetchContent : String → Except String String)
        (messages : List UIMessage) (cm : ChatModel),
      cm.provider = "google" →
      processMessagesWithFileConversion jsonParse prettyPrint fetchContent
        messages (some cm) = messages) := by
  refine ⟨?_, ?_, ?_⟩
  · intro mimeType filename
    simp [needsFileConversion, PROVIDERS_WITH_FULL_FILE_SUPPORT]
  · intro jsonParse prettyPrint fetchContent messages
    rfl
  · intro jsonParse prettyPrint fetchContent messages cm hp
    simp [processMessagesWithFileConversion, hp,
      PROVIDERS_WITH_FULL_FILE_SUPPORT]

/-- Concrete JSON-parse collaborator for witnesses: parses nothing. -/
def jsonParseNone : String → Option JValue := fun _ => none

/-- Concrete pretty-print collaborator for witnesses. -/
def prettyPrintStub : JValue → String := JValue.stringify

/-- Concrete fetch collaborator for witnesses: the network always fails. -/
def fetchStub : String → Except String String := fun _ => .error "offline"

/-- Concrete message list for the C8 witness. -/
def witnessMessages : List UIMessage :=
  [⟨"m1", [.text "hi", .file (some "text/csv") (some "data.csv") (some "u")]⟩]

/-- C8 witness: the theorem applied at provider "google" on a concrete
message list holding a convertible CSV attachment. -/
theorem google_needs_no_conversion_witness :
    needsFileConversion "google" "text/csv" (some "data.csv") = false
    ∧ processMessagesWithFileConversion jsonParseNone prettyPrintStub fetchStub
        witnessMessages (some ⟨"google", "gemini-2.5-pro"⟩) = witnessMessages :=
  ⟨google_needs_no_conversion.1 "text/csv" (some "data.csv"),
   google_needs_no_conversion.2.2 jsonParseNone prettyPrintStub fetchStub
     witnessMessages ⟨"google", "gemini-2.5-pro"⟩ rfl⟩

/-- C9: `convertFileToText` on MIME type "application/json" always routes
to `convertJSONToText` and is total: when `JSON.parse` fails (the
collaborator returns `none`) the fallback branch wraps the raw content in
a fenced json code block under a "JSON (raw)" header instead of raising,
and when it succeeds the pretty-printed value is wrapped under a "JSON"
header. -/
theorem convertFileToText_json_handles_unparseable :
    ∀ (jsonParse : String → Option JValue) (prettyPrint : JValue → String)
      (content : String) (filename : Option String),
      convertFileToText jsonParse prettyPrint content "application/json"
          filename =
        convertJSONToText jsonParse prettyPrint content filename
      ∧ (jsonParse content = none →
        convertJSONToText jsonParse prettyPrint content filename =
          (if jsTruthy filename then
            "File: " ++ filename.getD "" ++ "\nType: JSON (raw)\n\n"
          else "JSON Data:\n\n") ++ "```json\n" ++ content ++ "\n```")
      ∧ (∀ v, jsonParse content = some v →
        convertJSONToText jsonParse prettyPrint content filename =
          (if jsTruthy filename then
            "File: " ++ filename.getD "" ++ "\nType: JSON\n\n"
          else "JSON Data:\n\n") ++ "```json\n" ++ prettyPrint v ++ "\n```") := by
  intro jsonParse prettyPrint content filename
  refine ⟨rfl, ?_, ?_⟩
  · intro h
    simp [convertJSONToText, h]
  · intro v h
    simp [convertJSONToText, h]

/-- C9 witness: the theorem applied to unparseable content "not json"
with the parse collaborator that always fails - once with a truthy
filename (the "JSON (raw)" header) and once with the falsy empty-string
filename (the generic header the source's truthiness test selects). -/
theorem convertFileToText_json_handles_unparseable_witness :
    convertJSONToText jsonParseNone prettyPrintStub "not json"
        (some "bad.json") =
      "File: bad.json\nType: JSON (raw)\n\n" ++ "```json\n" ++ "not json" ++ "\n```"
    ∧ convertJSONToText jsonParseNone prettyPrintStub "not json" (some "") =
      "JSON Data:\n\n" ++ "```json\n" ++ "not json" ++ "\n```" := by
  constructor
  · have h := (convertFileToText_json_handles_unparseable jsonParseNone
      prettyPrintStub "not json" (some "bad.json")).2.1 rfl
    simpa [jsTruthy] using h
  · have h := (convertFileToText_json_handles_unparseable jsonParseNone
      prettyPrintStub "not json" (some "")).2.1 rfl
    simpa [jsTruthy] using h

/-- C10: `validateFileForModel` rejects exactly the files whose MIME type
is one of the four blocked Office MIME types or whose lowercased extension
is xlsx/xls/docx/doc; every other file is allowed (possibly with a
warning), and because the blocked check precedes the provider check the
rejection happens even for provider "google". -/
theorem validateFileForModel_blocked_iff :
    ∀ (file : BrowserFile) (model : ChatModel),
      ((∃ err, validateFileForModel file model = .reject err) ↔
        (file.type ∈ BLOCKED_MIME_TYPES ∨
          getFileExtension file.name ∈ BLOCKED_EXTENSIONS))
      ∧ (¬(file.type ∈ BLOCKED_MIME_TYPES ∨
            getFileExtension file.name ∈ BLOCKED_EXTENSIONS) →
          ∃ w, validateFileForModel file model = .allow w)
      ∧ ((file.type ∈ BLOCKED_MIME_TYPES ∨
            getFileExtension file.name ∈ BLOCKED_EXTENSIONS) →
          ∃ err, validateFileForModel file ⟨"google", model.model⟩ =
            .reject err) := by
  intro file model
  by_cases h : file.type ∈ BLOCKED_MIME_TYPES ∨
      getFileExtension file.name ∈ BLOCKED_EXTENSIONS
  · have hr : ∀ (m : ChatModel), ∃ err,
        validateFileForModel file m = .reject err := fun m =>
      ⟨_, if_pos h⟩
    exact ⟨⟨fun _ => h, fun _ => hr model⟩,
      fun hc => absurd h hc, fun _ => hr ⟨"google", model.model⟩⟩
  · have ha : ∃ w, validateFileForModel file model = .allow w := by
      unfold validateFileForModel
      simp only [if_neg h]
      split
      · exact ⟨_, rfl⟩
      · split
        · exact ⟨_, rfl⟩
        · split
          · exact ⟨_, rfl⟩
          · exact ⟨_, rfl⟩
    refine ⟨⟨?_, fun hc => absurd hc h⟩, fun _ => ha, fun hc => absurd hc h⟩
    rintro ⟨err, he⟩
    obtain ⟨w, hw⟩ := ha
    rw [he] at hw
    exact FileValidationResult.noConfusion hw

/-- C10 witness: the theorem applied to a .xlsx spreadsheet under provider
"google" (rejected despite full file support) and to an allowed PNG
image. -/
theorem validateFileForModel_blocked_iff_witness :
    (∃ err, validateFileForModel ⟨"report.XLSX", "application/vnd.ms-excel"⟩
        ⟨"google", "gemini-2.5-pro"⟩ = .reject err)
    ∧ (∃ w, validateFileForModel ⟨"photo.png", "image/png"⟩
        ⟨"anthropic", "claude-sonnet-4"⟩ = .allow w) :=
  ⟨(validateFileForModel_blocked_iff
      ⟨"report.XLSX", "application/vnd.ms-excel"⟩
      ⟨"google", "gemini-2.5-pro"⟩).2.2 (by decide),
   (validateFileForModel_blocked_iff ⟨"photo.png", "image/png"⟩
      ⟨"anthropic", "claude-sonnet-4"⟩).2.1 (by decide)⟩

/-! ## Workflow data model (spec section 3)

The workflow orchestration core (graph validator, scheduler, variable
resolver, node executors) is specified in spec sections 3-7 and in the
repository's own guide (docs "Workflow Data Flow Guide"); its executable
code is not among the staged files, so it is modelled from the spec. -/

/-- Modelled from the spec: the node kinds of the missing workflow core
(spec section 3, "kind (one of: Input, LLM, Tool, Condition, HTTP,
Template, Output)"). -/
inductive NodeKind where
  | input : NodeKind
  | llm : NodeKind
  | tool : NodeKind
  | condition : NodeKind
  | http : NodeKind
  | template : NodeKind
  | output : NodeKind
  deriving DecidableEq

/-- Modelled from the spec: a vertex of the missing workflow DAG (spec
section 3, "Node": id unique within workflow, kind). -/
structure WNode where
  id : ℕ
  kind : NodeKind
  deriving DecidableEq

/-- Modelled from the spec: a directed edge of the missing workflow DAG
(spec section 3, "Edge": source, target, optional branch label for
Condition sources). -/
structure WEdge where
  src : ℕ
  tgt : ℕ
  label : Option String
  deriving DecidableEq

/-- Modelled from the spec: the missing workflow structure (spec
section 3, "structure (set of Nodes, set of Edges)"). -/
structure Workflow where
  nodes : List WNode
  edges : List WEdge
  deriving DecidableEq

/-- Modelled from the spec: the edge relation of the missing workflow
graph - `estep g a b` holds when some edge runs from node `a` to node
`b`. -/
def estep (g : Workflow) (a b : ℕ) : Prop :=
  ∃ e ∈ g.edges, e.src = a ∧ e.tgt = b

instance (g : Workflow) (a b : ℕ) : Decidable (estep g a b) :=
  List.decidableBEx _ g.edges

/-- Modelled from the spec: every node id mentioned by the missing
workflow graph, as a duplicate-free list. -/
def vertList (g : Workflow) : List ℕ :=
  (g.nodes.map (fun n => n.id) ++ g.edges.map (fun e => e.src) ++
    g.edges.map (fun e => e.tgt)).dedup

/-- Modelled from the spec: the vertex set of the missing workflow
graph. -/
def verts (g : Workflow) : Finset ℕ :=
  (vertList g).toFinset

/-- Modelled from the spec: one-step successors of a vertex set inside
the graph - the frontier the missing validator's traversal expands. -/
def succsOf (g : Workflow) (S : Finset ℕ) : Finset ℕ :=
  (verts g).filter (fun b => ∃ a ∈ S, estep g a b)

/-- Modelled from the spec: one expansion step of the traversal. -/
def expand (g : Workflow) (S : Finset ℕ) : Finset ℕ :=
  S ∪ succsOf g S

/-- Modelled from the spec: the traversal after `k` expansion steps. -/
def iterExpand (g : Workflow) (S : Finset ℕ) : ℕ → Finset ℕ
  | 0 => S
  | k + 1 => expand g (iterExpand g S k)

/-- Modelled from the spec: all vertices reachable from `a` in at least
one step - the missing validator's cycle check asks whether `a` reaches
itself (spec section 4.1: a traversal finding a back-edge to a node being
visited reports the cycle). -/
def reachSet (g : Workflow) (a : ℕ) : Finset ℕ :=
  iterExpand g (succsOf g {a}) ((verts g).card + 1)

/-- Modelled from the spec: the missing `ValidationError` taxonomy (spec
section 7: CycleDetected, DuplicateNodeId, and the structural edge check
of section 4.1). -/
inductive ValidationError where
  | cycleDetected (node : ℕ) : ValidationError
  | duplicateNodeId (node : ℕ) : ValidationError
  | edgeEndpointMissing (e : WEdge) : ValidationError
  deriving DecidableEq

/-- Modelled from the spec: the missing validator's duplicate-id check
(spec section 4.1, "every node id is unique"). -/
def duplicateIdErrors (g : Workflow) : List ValidationError :=
  let ids := g.nodes.map (fun n => n.id)
  (ids.dedup.filter (fun i => 2 ≤ ids.count i)).map .duplicateNodeId

/-- Modelled from the spec: the missing validator's edge-endpoint check
(spec section 4.1, "every edge references existing node ids"). -/
def edgeEndpointErrors (g : Workflow) : List ValidationError :=
  let ids := g.nodes.map (fun n => n.id)
  (g.edges.filter (fun e =>
    !(decide (e.src ∈ ids) && decide (e.tgt ∈ ids)))).map .edgeEndpointMissing

/-- Modelled from the spec: the missing validator's cycle check - one
`CycleDetected` per vertex that reaches itself through at least one
edge. -/
def cycleErrors (g : Workflow) : List ValidationError :=
  ((vertList g).filter (fun v => decide (v ∈ reachSet g v))).map .cycleDetected

/-- Modelled from the spec: the missing `validate(workflow)` (spec
section 4.1) - a pure function over the graph returning all structural
errors; an empty list means the workflow is valid. -/
def validate (g : Workflow) : List ValidationError :=
  duplicateIdErrors g ++ edgeEndpointErrors g ++ cycleErrors g

/-! ### Correctness of the validator's cycle check (C2) -/

lemma mem_succsOf {g : Workflow} {S : Finset ℕ} {b : ℕ} :
    b ∈ succsOf g S ↔ b ∈ verts g ∧ ∃ a ∈ S, estep g a b := by
  simp [succsOf]

lemma src_mem_vertList {g : Workflow} {a b : ℕ} (h : estep g a b) :
    a ∈ vertList g := by
  obtain ⟨e, he, hsrc, htgt⟩ := h
  simp only [vertList, List.mem_dedup, List.mem_append, List.mem_map]
  exact Or.inl (Or.inr ⟨e, he, hsrc⟩)

lemma tgt_mem_vertList {g : Workflow} {a b : ℕ} (h : estep g a b) :
    b ∈ vertList g := by
  obtain ⟨e, he, hsrc, htgt⟩ := h
  simp only [vertList, List.mem_dedup, List.mem_append, List.mem_map]
  exact Or.inr ⟨e, he, htgt⟩

lemma mem_verts_iff {g : Workflow} {v : ℕ} : v ∈ verts g ↔ v ∈ vertList g :=
  List.mem_toFinset

lemma iterExpand_subset_succ {g : Workflow} {S : Finset ℕ} {k : ℕ} :
    iterExpand g S k ⊆ iterExpand g S (k + 1) :=
  Finset.subset_union_left

lemma iterExpand_mono {g : Workflow} {S : Finset ℕ} {k m : ℕ} (h : k ≤ m) :
    iterExpand g S k ⊆ iterExpand g S m := by
  induction m, h using Nat.le_induction with
  | base => exact subset_rfl
  | succ m hm ih => exact ih.trans iterExpand_subset_succ

lemma iterExpand_subset_verts {g : Workflow} {S : Finset ℕ}
    (hS : S ⊆ verts g) (k : ℕ) : iterExpand g S k ⊆ verts g := by
  induction k with
  | zero => exact hS
  | succ k ih =>
    simp only [iterExpand, expand]
    exact Finset.union_subset ih (Finset.filter_subset _ _)

lemma iterExpand_sound {g : Workflow} {a : ℕ} {S : Finset ℕ}
    (hS : ∀ x ∈ S, Relation.TransGen (estep g) a x) :
    ∀ k, ∀ x ∈ iterExpand g S k, Relation.TransGen (estep g) a x := by
  intro k
  induction k with
  | zero => exact hS
  | succ k ih =>
    intro x hx
    simp only [iterExpand, expand] at hx
    rcases Finset.mem_union.1 hx with h | h
    · exact ih x h
    · obtain ⟨-, y, hy, hstep⟩ := mem_succsOf.1 h
      exact (ih y hy).tail hstep

lemma reachSet_sound {g : Workflow} {a b : ℕ} (h : b ∈ reachSet g a) :
    Relation.TransGen (estep g) a b := by
  refine iterExpand_sound ?_ _ b h
  intro x hx
  obtain ⟨-, y, hy, hstep⟩ := mem_succsOf.1 hx
  rw [Finset.mem_singleton.1 hy] at hstep
  exact Relation.TransGen.single hstep

lemma iterExpand_stab {g : Workflow} {S : Finset ℕ} {k : ℕ}
    (h : iterExpand g S (k + 1) = iterExpand g S k) :
    ∀ m, k ≤ m → iterExpand g S m = iterExpand g S k := by
  intro m hm
  induction m, hm using Nat.le_induction with
  | base => rfl
  | succ m hm ih =>
    show expand g (iterExpand g S m) = iterExpand g S k
    rw [ih]
    exact h

lemma card_growth {g : Workflow} {S : Finset ℕ} :
    ∀ k, (∀ j, j < k → iterExpand g S (j + 1) ≠ iterExpand g S j) →
      S.card + k ≤ (iterExpand g S k).card := by
  intro k
  induction k with
  | zero => simp [iterExpand]
  | succ k ih =>
    intro h
    have h1 := ih (fun j hj => h j (hj.trans (Nat.lt_succ_self k)))
    have h2 : iterExpand g S k ⊂ iterExpand g S (k + 1) :=
      ssubset_of_subset_of_ne iterExpand_subset_succ
        (Ne.symm (h k (Nat.lt_succ_self k)))
    have h3 := Finset.card_lt_card h2
    omega

lemma exists_stab {g : Workflow} {S : Finset ℕ} (hS : S ⊆ verts g) :
    ∃ k ≤ (verts g).card, iterExpand g S (k + 1) = iterExpand g S k := by
  by_contra hc
  push_neg at hc
  have h := card_growth ((verts g).card + 1) (fun j hj => hc j (by omega))
  have hle := Finset.card_le_card (iterExpand_subset_verts hS ((verts g).card + 1))
  omega

lemma reachSet_closed {g : Workflow} {a : ℕ} (x y : ℕ)
    (hx : x ∈ reachSet g a) (hstep : estep g x y) : y ∈ reachSet g a := by
  have hS : succsOf g {a} ⊆ verts g := Finset.filter_subset _ _
  obtain ⟨k, hk, hstab⟩ := exists_stab hS
  have hfix : iterExpand g (succsOf g {a}) ((verts g).card + 1) =
      iterExpand g (succsOf g {a}) k := iterExpand_stab hstab _ (by omega)
  simp only [reachSet] at hx ⊢
  rw [hfix] at hx ⊢
  have hy : y ∈ succsOf g (iterExpand g (succsOf g {a}) k) :=
    mem_succsOf.2 ⟨mem_verts_iff.2 (tgt_mem_vertList hstep), x, hx, hstep⟩
  have hy2 : y ∈ iterExpand g (succsOf g {a}) (k + 1) :=
    Finset.mem_union_right _ hy
  rwa [hstab] at hy2

lemma reachSet_complete {g : Workflow} {a b : ℕ}
    (h : Relation.TransGen (estep g) a b) : b ∈ reachSet g a := by
  induction h with
  | single hstep =>
    simp only [reachSet]
    refine iterExpand_mono (Nat.zero_le _) ?_
    show _ ∈ succsOf g {a}
    exact mem_succsOf.2 ⟨mem_verts_iff.2 (tgt_mem_vertList hstep), a,
      Finset.mem_singleton_self a, hstep⟩
  | tail hab hstep ih => exact reachSet_closed _ _ ih hstep

lemma transGen_exists_first {g : Workflow} {a b : ℕ}
    (h : Relation.TransGen (estep g) a b) : ∃ x, estep g a x := by
  induction h with
  | single h => exact ⟨_, h⟩
  | tail _ _ ih => exact ih

lemma cycleDetected_mem_validate {g : Workflow} {v : ℕ} :
    ValidationError.cycleDetected v ∈ validate g ↔
      v ∈ vertList g ∧ v ∈ reachSet g v := by
  simp [validate, duplicateIdErrors, edgeEndpointErrors, cycleErrors,
    List.mem_filter]

/-- C2: `validate` reports `CycleDetected` if and only if the edge
relation contains a cycle; every reported `CycleDetected` names a node
lying on a cycle; and a self-edge from a node to itself always yields a
`CycleDetected` naming that node (so acyclic graphs get none). -/
theorem validate_cycle_detection (g : Workflow) :
    ((∃ v, ValidationError.cycleDetected v ∈ validate g) ↔
      ∃ v, Relation.TransGen (estep g) v v)
    ∧ (∀ v, ValidationError.cycleDetected v ∈ validate g →
        Relation.TransGen (estep g) v v)
    ∧ (∀ e, e ∈ g.edges → e.tgt = e.src →
        ValidationError.cycleDetected e.src ∈ validate g) := by
  have hfwd : ∀ v, ValidationError.cycleDetected v ∈ validate g →
      Relation.TransGen (estep g) v v := fun v hv =>
    reachSet_sound (cycleDetected_mem_validate.1 hv).2
  have hbwd : ∀ v, Relation.TransGen (estep g) v v →
      ValidationError.cycleDetected v ∈ validate g := by
    intro v hv
    refine cycleDetected_mem_validate.2 ⟨?_, reachSet_complete hv⟩
    obtain ⟨x, hx⟩ := transGen_exists_first hv
    exact src_mem_vertList hx
  refine ⟨⟨fun ⟨v, hv⟩ => ⟨v, hfwd v hv⟩, fun ⟨v, hv⟩ => ⟨v, hbwd v hv⟩⟩,
    hfwd, ?_⟩
  intro e he ht
  exact hbwd e.src (Relation.TransGen.single ⟨e, he, rfl, ht⟩)

/-- Concrete workflow with a self-edge, for the C2 witness. -/
def selfLoopWorkflow : Workflow := ⟨[⟨0, .http⟩], [⟨0, 0, none⟩]⟩

/-- C2 witness: the theorem applied to the self-loop workflow - validate
reports `CycleDetected 0` and node 0 indeed lies on a cycle. -/
theorem validate_cycle_detection_witness :
    ValidationError.cycleDetected 0 ∈ validate selfLoopWorkflow
    ∧ Relation.TransGen (estep selfLoopWorkflow) 0 0 :=
  ⟨(validate_cycle_detection selfLoopWorkflow).2.2 ⟨0, 0, none⟩ (by decide) rfl,
   (validate_cycle_detection selfLoopWorkflow).2.1 0
     ((validate_cycle_detection selfLoopWorkflow).2.2 ⟨0, 0, none⟩ (by decide) rfl)⟩

/-! ## Execution scheduler model (spec sections 4.2, 5, 7) -/

/-- Modelled from the spec: the missing `ExecutionError` taxonomy (spec
section 7: ProviderError, ToolNotFound, Timeout, ConstructionError). -/
inductive ExecError where
  | providerError (msg : String) : ExecError
  | toolNotFound (name : String) : ExecError
  | timeout : ExecError
  | constructionError (msg : String) : ExecError
  deriving DecidableEq

/-- Modelled from the spec: a node executor's outcome - the output object
and, for Condition nodes, the selected branch label (spec section 4.4). -/
structure ExecOutcome where
  output : JValue
  branch : Option String

/-- Modelled from the spec: the per-node status recorded in a NodeResult
(spec sections 3 and 4.2: succeeded with its output and branch, failed
with its error, skipped by an inactive branch, or skipped because an
upstream node failed). -/
inductive NodeStatus where
  | succeeded (output : JValue) (branch : Option String) : NodeStatus
  | failed (err : ExecError) : NodeStatus
  | skipped : NodeStatus
  | skippedDueToFailure : NodeStatus

/-- Modelled from the spec: the run store - the ordered map from node id
to NodeResult accumulated by the scheduler (spec section 3,
ExecutionRun). -/
abbrev RunState : Type := List (ℕ × NodeStatus)

/-- Modelled from the spec: the dispatch capability - given a node id and
the accumulated results, a kind-specific Node Executor returns an output
or raises an `ExecutionError` (spec section 4.4 common contract).  The
external collaborators (model invocation, HTTP client, tool registry) are
folded into this capability. -/
abbrev ExecFn : Type := ℕ → RunState → Except ExecError ExecOutcome

/-- Modelled from the spec: does an upstream status block its dependents
(spec section 4.2 step 4: failure, or an upstream skip-on-failure,
cascades; a missing result means the dependency never produced one). -/
def statusBlocks : Option NodeStatus → Bool
  | some (.failed _) => true
  | some .skippedDueToFailure => true
  | none => true
  | _ => false

/-- Modelled from the spec: is the edge inactive for its target - the
source was skipped, or it is a Condition branch whose label differs from
the selected branch (spec section 4.2, conditional branching). -/
def edgeSkips (rs : RunState) (e : WEdge) : Bool :=
  match List.lookup e.src rs with
  | some .skipped => true
  | some (.succeeded _ br) =>
    match e.label with
    | some lbl => !(br == some lbl)
    | none => false
  | _ => false

/-- Modelled from the spec: the scheduler's decision for one node given
the accumulated results (spec section 4.2): skip-on-failure when any
incoming edge's source failed or was skipped-due-to-failure, plain skip
when any incoming edge is inactive, otherwise dispatch to the node
executor and record success or failure. -/
def decideNode (g : Workflow) (ex : ExecFn) (n : ℕ) (rs : RunState) :
    NodeStatus :=
  let preds := g.edges.filter (fun e => e.tgt == n)
  if preds.any (fun e => statusBlocks (List.lookup e.src rs)) then
    .skippedDueToFailure
  else if preds.any (fun e => edgeSkips rs e) then
    .skipped
  else
    match ex n rs with
    | .ok o => .succeeded o.output o.branch
    | .error err => .failed err

/-- Modelled from the spec: the scheduler's traversal - process the
remaining nodes of the topological order in sequence, appending each
node's NodeResult to the run store (spec section 4.2: topological
execution with append-only result recording; concurrency is an
optimization the spec says is not a correctness requirement, so the model
serializes). -/
def runAux (g : Workflow) (ex : ExecFn) : List ℕ → RunState → RunState
  | [], rs => rs
  | n :: rest, rs => runAux g ex rest (rs ++ [(n, decideNode g ex n rs)])

/-- Modelled from the spec: the missing `execute(workflow, input)` - run
every node of the precomputed topological order, starting from an empty
run store; total, node failures are recorded, never thrown (spec
sections 4.2 and 7). -/
def executeRun (g : Workflow) (ex : ExecFn) (order : List ℕ) : RunState :=
  runAux g ex order []

/-- Modelled from the spec: ids of the workflow's Output nodes (spec
section 4.2, termination: the run status is read off these). -/
def outputIds (g : Workflow) : List ℕ :=
  (g.nodes.filter (fun n => n.kind == .output)).map (fun n => n.id)

/-- Modelled from the spec: did the node produce a result in this run
(spec section 4.2: an Output node "produced a result" when it
succeeded). -/
def produced (rs : RunState) (n : ℕ) : Bool :=
  match List.lookup n rs with
  | some (.succeeded _ _) => true
  | _ => false

/-- Modelled from the spec: the overall run status (spec section 3,
ExecutionRun.status). -/
inductive RunStatus where
  | running : RunStatus
  | succeeded : RunStatus
  | failed : RunStatus
  | partialRun : RunStatus
  deriving DecidableEq

/-- Modelled from the spec: the missing termination rule (spec
section 4.2): succeeded when all Output nodes produced results,
partialRun when some did, failed when none did. -/
def runStatus (rs : RunState) (outs : List ℕ) : RunStatus :=
  if outs.all (fun n => produced rs n) then .succeeded
  else if outs.any (fun n => produced rs n) then .partialRun
  else .failed

/-- Modelled from the spec: the missing `RunError` kind (spec section 7:
NoOutputProduced). -/
inductive RunErrorKind where
  | noOutputProduced : RunErrorKind
  deriving DecidableEq

/-- Modelled from the spec: the errors that may surface from
`runWorkflow` (spec section 7 propagation policy): a ValidationError
before any node runs, or a RunError on total failure. -/
inductive TopLevelError where
  | validationFailed (errs : List ValidationError) : TopLevelError
  | runFailed (k : RunErrorKind) : TopLevelError
  deriving DecidableEq

/-- Modelled from the spec: the run summary returned to the caller (spec
section 6: status plus per-node results). -/
structure RunSummary where
  results : RunState
  status : RunStatus

/-- Modelled from the spec: the missing `runWorkflow` entry point (spec
sections 6 and 7): validate first and abort on any validation error;
otherwise execute and convert a totally-failed run into `RunError
NoOutputProduced`; every other run is returned as a summary. -/
def runWorkflow (g : Workflow) (ex : ExecFn) (order : List ℕ) :
    Except TopLevelError RunSummary :=
  if validate g ≠ [] then
    .error (.validationFailed (validate g))
  else
    let rs := executeRun g ex order
    match runStatus rs (outputIds g) with
    | .failed => .error (.runFailed .noOutputProduced)
    | s => .ok ⟨rs, s⟩

/-! ## Variable resolver model (spec section 4.3) -/

/-- Modelled from the spec: a resolution failure (spec section 4.3:
UnresolvedReference when the source node has no result yet, FieldNotFound
when the path is absent from the produced output). -/
inductive ResolutionError where
  | unresolvedReference : ResolutionError
  | fieldNotFound : ResolutionError
  deriving DecidableEq

/-- Modelled from the spec: one step of a field path - an object key or
an array index (spec section 4.3, "ordered sequence of keys/indices"). -/
inductive PathKey where
  | key (k : String) : PathKey
  | idx (i : ℕ) : PathKey
  deriving DecidableEq

/-- Modelled from the spec: a variable reference - a source node id and a
field path into its output (spec section 4.3). -/
structure NodeRef where
  node : ℕ
  path : List PathKey
  deriving DecidableEq

/-- Modelled from the spec: walk a field path into an output value,
failing with FieldNotFound where the path does not exist. -/
def walkPath : List PathKey → JValue → Except ResolutionError JValue
  | [], v => .ok v
  | .key k :: rest, .obj fs =>
    match fs.lookup k with
    | some v => walkPath rest v
    | none => .error .fieldNotFound
  | .idx i :: rest, .arr xs =>
    match xs.get? i with
    | some v => walkPath rest v
    | none => .error .fieldNotFound
  | _ :: _, _ => .error .fieldNotFound

/-- Modelled from the spec: the missing `resolve(reference, run)` - a
pure function of the reference and the run's accumulated NodeResults
(spec section 4.3). -/
def resolve (ref : NodeRef) (rs : RunState) : Except ResolutionError JValue :=
  match List.lookup ref.node rs with
  | some (.succeeded out _) => walkPath ref.path out
  | _ => .error .unresolvedReference

/-- Modelled from the spec: a configuration value is either a literal or
a reference (spec section 4.3: "literal (non-reference) configuration
values pass through unchanged"). -/
inductive ConfigValue where
  | lit (v : JValue) : ConfigValue
  | ref (r : NodeRef) : ConfigValue

/-- Modelled from the spec: resolve one configuration value - literals
pass through unchanged, references go through the resolver. -/
def resolveConfig : ConfigValue → RunState → Except ResolutionError JValue
  | .lit v, _ => .ok v
  | .ref r, rs => resolve r rs

/-! ## Template node executor model (spec section 4.4, design note on
parsed reference lists) -/

/-- Modelled from the spec: a template body parsed at configuration-load
time into literal runs and embedded references (spec section 9 design
note on string-embedded variable mentions). -/
inductive TemplateSeg where
  | lit (s : String) : TemplateSeg
  | refSeg (r : NodeRef) : TemplateSeg

/-- Modelled from the spec: the string representation substituted for a
resolved value - strings verbatim, other values as compact JSON (spec
section 4.3). -/
def stringifyForTemplate : JValue → String
  | .str s => s
  | v => v.stringify

/-- Modelled from the spec: render a parsed template against the run -
string substitution only, no external call (spec section 4.4, Template
row). -/
def renderSegs : List TemplateSeg → RunState → Except ResolutionError String
  | [], _ => .ok ""
  | .lit s :: rest, rs =>
    match renderSegs rest rs with
    | .ok t => .ok (s ++ t)
    | .error e => .error e
  | .refSeg r :: rest, rs =>
    match resolve r rs with
    | .ok v =>
      match renderSegs rest rs with
      | .ok t => .ok (stringifyForTemplate v ++ t)
      | .error e => .error e
    | .error e => .error e

/-- Modelled from the spec: the missing Template node executor - output
shape `{template: string}` (spec section 4.4 and the repository guide's
Template node output schema). -/
def executeTemplate (segs : List TemplateSeg) (rs : RunState) :
    Except ResolutionError JValue :=
  match renderSegs segs rs with
  | .ok s => .ok (.obj [("template", .str s)])
  | .error e => .error e

/-- Modelled from the spec: the literal text of a template - the
concatenation of its literal segments. -/
def literalText : List TemplateSeg → String
  | [] => ""
  | .lit s :: rest => s ++ literalText rest
  | .refSeg _ :: rest => literalText rest

/-! ## HTTP node executor model (spec sections 4.4, 6; repository guide
"Workflow Data Flow Guide") -/

/-- Modelled from the spec: a resolved HTTP request (spec section 4.4,
HTTP row: resolved URL, method, headers, query params, body). -/
structure HttpRequest where
  method : String
  url : String
  headers : List (String × String)
  query : List (String × String)
  body : Option String

/-- Modelled from the spec: what the external HTTP-client capability
returns (spec section 6: status, headers, body as string, duration,
size; the statusText of the underlying response). -/
structure HttpResponseData where
  status : Int
  statusText : String
  headers : List (String × String)
  body : String
  duration : Int
  size : Int

/-- Modelled from the spec: the missing HTTP node executor - wrap the
client capability's response into the documented
`{response: {status, statusText, ok, headers, body, duration, size}}`
output; the body is stored as the raw string, never parsed as JSON
(repository guide: "The body field is always a string, even if the API
returns JSON. This is by design."). -/
def executeHttpNode (client : HttpRequest → HttpResponseData)
    (req : HttpRequest) : JValue :=
  let r := client req
  .obj [("response", .obj
    [ ("status", .num r.status)
    , ("statusText", .str r.statusText)
    , ("ok", .bool (decide (200 ≤ r.status ∧ r.status < 300)))
    , ("headers", .obj (r.headers.map (fun p => (p.1, .str p.2))))
    , ("body", .str r.body)
    , ("duration", .num r.duration)
    , ("size", .num r.size) ])]

/-! ### Run-store lemmas: the scheduler appends results and earlier
entries are never overwritten (spec section 3, NodeResults append-only) -/

lemma lookup_append_some {n : ℕ} {rs rest : RunState} {s : NodeStatus}
    (h : List.lookup n rs = some s) : List.lookup n (rs ++ rest) = some s := by
  induction rs with
  | nil => simp [List.lookup] at h
  | cons p rs ih =>
    match p with
    | (k, b) =>
      rw [List.cons_append]
      rw [List.lookup] at h ⊢
      cases hk : n == k with
      | true => rw [hk] at h; simpa [hk] using h
      | false => rw [hk] at h; simp only [hk]; exact ih h

lemma lookup_append_none {n : ℕ} {rs rest : RunState}
    (h : List.lookup n rs = none) :
    List.lookup n (rs ++ rest) = List.lookup n rest := by
  induction rs with
  | nil => simp
  | cons p rs ih =>
    match p with
    | (k, b) =>
      rw [List.cons_append]
      rw [List.lookup] at h ⊢
      cases hk : n == k with
      | true => rw [hk] at h; simp at h
      | false => rw [hk] at h; simp only [hk]; exact ih h

lemma lookup_runAux_some {g : Workflow} {ex : ExecFn} {l : List ℕ}
    {rs : RunState} {n : ℕ} {s : NodeStatus}
    (h : List.lookup n rs = some s) :
    List.lookup n (runAux g ex l rs) = some s := by
  induction l generalizing rs with
  | nil => exact h
  | cons m rest ih => exact ih (lookup_append_some h)

lemma lookup_runAux_none {g : Workflow} {ex : ExecFn} {l : List ℕ}
    {rs : RunState} {n : ℕ} (hn : n ∉ l)
    (h : List.lookup n rs = none) :
    List.lookup n (runAux g ex l rs) = none := by
  induction l generalizing rs with
  | nil => exact h
  | cons m rest ih =>
    have hm : n ≠ m := fun hmn => hn (hmn ▸ List.mem_cons_self m rest)
    refine ih (fun hmem => hn (List.mem_cons_of_mem m hmem)) ?_
    rw [lookup_append_none h]
    have hbeq : (n == m) = false := beq_eq_false_iff_ne.2 hm
    simp [List.lookup, hbeq]

lemma runAux_append {g : Workflow} {ex : ExecFn} (l₁ l₂ : List ℕ)
    (rs : RunState) :
    runAux g ex (l₁ ++ l₂) rs = runAux g ex l₂ (runAux g ex l₁ rs) := by
  induction l₁ generalizing rs with
  | nil => rfl
  | cons m rest ih => exact ih _

lemma lookup_run_split (g : Workflow) (ex : ExecFn) {l₁ : List ℕ}
    (l₂ : List ℕ) {n : ℕ} (hn : n ∉ l₁) :
    List.lookup n (runAux g ex (l₁ ++ n :: l₂) []) =
      some (decideNode g ex n (runAux g ex l₁ [])) := by
  rw [runAux_append]
  show List.lookup n (runAux g ex l₂ _) = _
  apply lookup_runAux_some
  have hnil : List.lookup n ([] : RunState) = none := rfl
  rw [lookup_append_none (lookup_runAux_none hn hnil)]
  simp [List.lookup]

lemma blocked_pred_skips {g : Workflow} {ex : ExecFn} {order : List ℕ}
    (hnodup : order.Nodup) {a b : ℕ}
    (hstep : estep g a b) (hbmem : b ∈ order)
    {s : NodeStatus} (hs : List.lookup a (executeRun g ex order) = some s)
    (hblocks : statusBlocks (some s) = true) :
    List.lookup b (executeRun g ex order) = some .skippedDueToFailure := by
  obtain ⟨l₁, l₂, rfl⟩ := List.append_of_mem hbmem
  obtain ⟨hn₁, hn₂, hdisj⟩ := List.nodup_append.1 hnodup
  have hb1 : b ∉ l₁ := fun hb => hdisj hb (List.mem_cons_self b l₂)
  have hrun := lookup_run_split g ex l₂ hb1
  have hcond : (g.edges.filter (fun e => e.tgt == b)).any
      (fun e => statusBlocks (List.lookup e.src (runAux g ex l₁ []))) = true := by
    obtain ⟨e, he, hesrc, hetgt⟩ := hstep
    refine List.any_eq_true.2 ⟨e, List.mem_filter.2 ⟨he, by simp [hetgt]⟩, ?_⟩
    rw [hesrc]
    cases hl : List.lookup a (runAux g ex l₁ []) with
    | none => rfl
    | some s' =>
      have hfin : List.lookup a (runAux g ex (l₁ ++ b :: l₂) []) = some s' := by
        rw [runAux_append]
        exact lookup_runAux_some hl
      have : s' = s := by
        have := hfin.symm.trans hs
        exact Option.some.inj this
      rw [this]
      exact hblocks
  have hdec : decideNode g ex b (runAux g ex l₁ []) = .skippedDueToFailure := by
    simp only [decideNode]
    rw [if_pos hcond]
  rw [executeRun, hrun, hdec]

/-- C3: in a completed run over a topologically sorted order, if a node
failed then every strict descendant of it in the DAG ends the run with
status skipped-due-to-failure or failed, and no strict descendant ends
succeeded. -/
theorem failed_node_blocks_descendants
    (g : Workflow) (ex : ExecFn) (order : List ℕ)
    (hnodup : order.Nodup)
    (htopo : ∀ e ∈ g.edges, e.src ∈ order ∧ e.tgt ∈ order ∧
      order.indexOf e.src < order.indexOf e.tgt)
    (u v : ℕ) (err : ExecError)
    (hu : List.lookup u (executeRun g ex order) = some (.failed err))
    (hdesc : Relation.TransGen (estep g) u v) :
    (List.lookup v (executeRun g ex order) = some .skippedDueToFailure
      ∨ ∃ e2, List.lookup v (executeRun g ex order) = some (.failed e2))
    ∧ ∀ out br, List.lookup v (executeRun g ex order) ≠
        some (.succeeded out br) := by
  have hmem : ∀ {c d : ℕ}, estep g c d → d ∈ order := by
    rintro c d ⟨e, he, hsrc, htgt⟩
    exact htgt ▸ (htopo e he).2.1
  have hskip : List.lookup v (executeRun g ex order) =
      some .skippedDueToFailure := by
    induction hdesc with
    | single hstep =>
      exact blocked_pred_skips hnodup hstep (hmem hstep) hu rfl
    | tail hab hstep ih =>
      exact blocked_pred_skips hnodup hstep (hmem hstep) ih rfl
  refine ⟨Or.inl hskip, fun out br hcontra => ?_⟩
  rw [hskip] at hcontra
  exact NodeStatus.noConfusion (Option.some.inj hcontra)

/-- Concrete three-node chain Input(0) -> HTTP(1) -> Output(2) for the C3
witness. -/
def cascadeWorkflow : Workflow :=
  ⟨[⟨0, .input⟩, ⟨1, .http⟩, ⟨2, .output⟩], [⟨0, 1, none⟩, ⟨1, 2, none⟩]⟩

/-- Concrete executor for the C3 witness: node 1 times out, every other
node succeeds. -/
def cascadeExec : ExecFn := fun n _ =>
  if n = 1 then .error .timeout else .ok ⟨.null, none⟩

/-- C3 witness: the theorem applied to the concrete chain - node 1 failed
(timeout), so its strict descendant node 2 is skipped-due-to-failure or
failed. -/
theorem failed_node_blocks_descendants_witness :
    List.lookup 2 (executeRun cascadeWorkflow cascadeExec [0, 1, 2]) =
        some .skippedDueToFailure
      ∨ ∃ e2, List.lookup 2 (executeRun cascadeWorkflow cascadeExec [0, 1, 2]) =
        some (.failed e2) :=
  (failed_node_blocks_descendants cascadeWorkflow cascadeExec [0, 1, 2]
    (by decide) (by decide) 1 2 .timeout rfl
    (Relation.TransGen.single ⟨⟨1, 2, none⟩, by decide, rfl, rfl⟩)).1

/-- C4: the overall status of a completed run is determined by the Output
nodes alone - succeeded when every Output node produced a result,
partialRun when some produced and some did not, failed when none did
(stated for workflows with at least one Output node). -/
theorem run_status_by_output_nodes
    (g : Workflow) (ex : ExecFn) (order : List ℕ)
    (houts : outputIds g ≠ []) :
    (runStatus (executeRun g ex order) (outputIds g) = .succeeded ↔
      ∀ n ∈ outputIds g, produced (executeRun g ex order) n = true)
    ∧ (runStatus (executeRun g ex order) (outputIds g) = .partialRun ↔
      ((∃ n ∈ outputIds g, produced (executeRun g ex order) n = true)
        ∧ ∃ n ∈ outputIds g, produced (executeRun g ex order) n = false))
    ∧ (runStatus (executeRun g ex order) (outputIds g) = .failed ↔
      ∀ n ∈ outputIds g, produced (executeRun g ex order) n = false) := by
  set rs := executeRun g ex order with hrs
  set outs := outputIds g with houtsdef
  have hfalse_iff : ∀ n, produced rs n = false ↔ ¬ produced rs n = true := by
    intro n; cases produced rs n <;> simp
  cases hall : outs.all (fun n => produced rs n) with
  | true =>
    have hstat : runStatus rs outs = .succeeded := by
      simp [runStatus, hall]
    have hprod : ∀ n ∈ outs, produced rs n = true := List.all_eq_true.1 hall
    obtain ⟨n0, hn0⟩ := List.exists_mem_of_ne_nil outs houts
    rw [hstat]
    refine ⟨⟨fun _ => hprod, fun _ => rfl⟩, ⟨?_, ?_⟩, ⟨?_, ?_⟩⟩
    · intro h; exact absurd h (by simp)
    · rintro ⟨-, n, hn, hf⟩
      exact absurd (hprod n hn) ((hfalse_iff n).1 hf)
    · intro h; exact absurd h (by simp)
    · intro h
      exact absurd (hprod n0 hn0) ((hfalse_iff n0).1 (h n0 hn0))
  | false =>
    obtain ⟨nf, hnf, hnffalse⟩ : ∃ n ∈ outs, produced rs n = false := by
      rw [← Bool.not_eq_true, List.all_eq_true] at hall
      push_neg at hall
      obtain ⟨n, hn, hp⟩ := hall
      exact ⟨n, hn, (hfalse_iff n).2 hp⟩
    cases hany : outs.any (fun n => produced rs n) with
    | true =>
      have hstat : runStatus rs outs = .partialRun := by
        simp [runStatus, hall, hany]
      obtain ⟨nt, hnt, hnttrue⟩ := List.any_eq_true.1 hany
      rw [hstat]
      refine ⟨⟨?_, ?_⟩, ⟨fun _ => ⟨⟨nt, hnt, hnttrue⟩, ⟨nf, hnf, hnffalse⟩⟩,
        fun _ => rfl⟩, ⟨?_, ?_⟩⟩
      · intro h; exact absurd h (by simp)
      · intro h
        exact absurd (h nf hnf) ((hfalse_iff nf).1 hnffalse)
      · intro h; exact absurd h (by simp)
      · intro h
        exact absurd hnttrue ((hfalse_iff nt).1 (h nt hnt))
    | false =>
      have hstat : runStatus rs outs = .failed := by
        simp [runStatus, hall, hany]
      have hnone : ∀ n ∈ outs, produced rs n = false := by
        intro n hn
        refine (hfalse_iff n).2 (fun ht => ?_)
        exact absurd (List.any_eq_true.2 ⟨n, hn, ht⟩) (by simp [hany])
      rw [hstat]
      refine ⟨⟨?_, ?_⟩, ⟨?_, ?_⟩, ⟨fun _ => hnone, fun _ => rfl⟩⟩
      · intro h; exact absurd h (by simp)
      · intro h
        exact absurd (h nf hnf) ((hfalse_iff nf).1 hnffalse)
      · intro h; exact absurd h (by simp)
      · rintro ⟨⟨n, hn, ht⟩, -⟩
        exact absurd ht ((hfalse_iff n).1 (hnone n hn))

/-- Concrete executor for the C4 witness: every node succeeds. -/
def allOkExec : ExecFn := fun _ _ => .ok ⟨.null, none⟩

/-- C4 witness: the theorem applied to the concrete chain workflow with
an all-succeeding executor - every Output node produced a result, so the
run status is succeeded. -/
theorem run_status_by_output_nodes_witness :
    runStatus (executeRun cascadeWorkflow allOkExec [0, 1, 2])
      (outputIds cascadeWorkflow) = .succeeded :=
  (run_status_by_output_nodes cascadeWorkflow allOkExec [0, 1, 2]
    (by decide)).1.2 (by decide)

/-- C7: an ExecutionError raised by a node executor is caught and
recorded in that node's NodeResult (the run store) and `executeRun`
returns a run state rather than throwing; the only errors surfacing from
`runWorkflow` are a ValidationError raised before execution or a RunError
when no Output node produced a result. -/
theorem execution_errors_contained
    (g : Workflow) (ex : ExecFn) (order : List ℕ) :
    (∀ (l₁ l₂ : List ℕ) (n : ℕ) (err : ExecError),
      order = l₁ ++ n :: l₂ → n ∉ l₁ →
      (g.edges.filter (fun e => e.tgt == n)).any
        (fun e => statusBlocks (List.lookup e.src (runAux g ex l₁ []))) = false →
      (g.edges.filter (fun e => e.tgt == n)).any
        (fun e => edgeSkips (runAux g ex l₁ []) e) = false →
      ex n (runAux g ex l₁ []) = .error err →
      List.lookup n (executeRun g ex order) = some (.failed err))
    ∧ ((∃ s, runWorkflow g ex order = .ok s)
      ∨ (validate g ≠ [] ∧
          runWorkflow g ex order = .error (.validationFailed (validate g)))
      ∨ runWorkflow g ex order = .error (.runFailed .noOutputProduced))
    ∧ (validate g ≠ [] →
        runWorkflow g ex order = .error (.validationFailed (validate g))) := by
  refine ⟨?_, ?_, ?_⟩
  · intro l₁ l₂ n err horder hn hblocks hskips hex
    subst horder
    rw [executeRun, lookup_run_split g ex l₂ hn]
    have hdec : decideNode g ex n (runAux g ex l₁ []) = .failed err := by
      simp only [decideNode]
      rw [if_neg (by simp [hblocks]), if_neg (by simp [hskips]), hex]
    rw [hdec]
  · by_cases hv : validate g ≠ []
    · exact Or.inr (Or.inl ⟨hv, by simp [runWorkflow, hv]⟩)
    · cases hst : runStatus (executeRun g ex order) (outputIds g) with
      | failed =>
        refine Or.inr (Or.inr ?_)
        simp [runWorkflow, hv, hst]
      | running =>
        exact Or.inl ⟨⟨executeRun g ex order, .running⟩,
          by simp [runWorkflow, hv, hst]⟩
      | succeeded =>
        exact Or.inl ⟨⟨executeRun g ex order, .succeeded⟩,
          by simp [runWorkflow, hv, hst]⟩
      | partialRun =>
        exact Or.inl ⟨⟨executeRun g ex order, .partialRun⟩,
          by simp [runWorkflow, hv, hst]⟩
  · intro hv
    simp [runWorkflow, hv]

/-- C7 witness: the theorem applied twice concretely - the timing-out
executor's error at node 1 of the chain workflow is recorded as that
node's failed NodeResult, and the self-loop workflow's validation errors
abort `runWorkflow` before execution. -/
theorem execution_errors_contained_witness :
    List.lookup 1 (executeRun cascadeWorkflow cascadeExec [0, 1, 2]) =
        some (.failed .timeout)
    ∧ runWorkflow selfLoopWorkflow cascadeExec [0] =
        .error (.validationFailed (validate selfLoopWorkflow)) :=
  ⟨(execution_errors_contained cascadeWorkflow cascadeExec [0, 1, 2]).1
      [0] [2] 1 .timeout rfl (by decide) rfl rfl rfl,
   (execution_errors_contained selfLoopWorkflow cascadeExec [0]).2.2
      (by decide)⟩

/-- C5: variable resolution is deterministic within a run - resolving the
same reference twice against the same run state gives the same outcome,
resolution depends only on the run's accumulated NodeResults, and literal
configuration values pass through unchanged. -/
theorem resolve_deterministic :
    (∀ (r : NodeRef) (rs : RunState), resolve r rs = resolve r rs)
    ∧ (∀ (r : NodeRef) (rs₁ rs₂ : RunState),
        (∀ n, List.lookup n rs₁ = List.lookup n rs₂) →
        resolve r rs₁ = resolve r rs₂)
    ∧ (∀ (v : JValue) (rs : RunState), resolveConfig (.lit v) rs = .ok v) := by
  refine ⟨fun _ _ => rfl, ?_, fun _ _ => rfl⟩
  intro r rs₁ rs₂ h
  simp only [resolve, h r.node]

/-- Concrete run state for the C5 witness. -/
def resolveRunA : RunState :=
  [(5, .succeeded (.obj [("x", .num 1)]) none)]

/-- Second concrete run state for the C5 witness: an extra shadowed entry
that no lookup can observe. -/
def resolveRunB : RunState :=
  [(5, .succeeded (.obj [("x", .num 1)]) none), (5, .failed .timeout)]

/-- C5 witness: the theorem applied to a concrete reference and two
lookup-equal run states. -/
theorem resolve_deterministic_witness :
    resolve ⟨5, [.key "x"]⟩ resolveRunA = resolve ⟨5, [.key "x"]⟩ resolveRunB :=
  resolve_deterministic.2.1 ⟨5, [.key "x"]⟩ resolveRunA resolveRunB
    (by
      intro n
      by_cases h : n = 5
      · simp [resolveRunA, resolveRunB, List.lookup, h]
      · have hb : (n == 5) = false := beq_eq_false_iff_ne.2 h
        simp [resolveRunA, resolveRunB, List.lookup, hb])

/-- C6: a Template node whose parsed body holds no embedded references
renders to its literal text unchanged, with output `{template: s}`; the
renderer is string substitution only (a pure function of the segments and
the run state). -/
theorem template_literal_roundtrip :
    (∀ (s : String) (rs : RunState),
      executeTemplate [.lit s] rs = .ok (.obj [("template", .str s)]))
    ∧ (∀ (segs : List TemplateSeg) (rs : RunState),
        (∀ seg ∈ segs, ∃ s, seg = .lit s) →
        executeTemplate segs rs =
          .ok (.obj [("template", .str (literalText segs))])) := by
  have hrender : ∀ (segs : List TemplateSeg) (rs : RunState),
      (∀ seg ∈ segs, ∃ s, seg = TemplateSeg.lit s) →
      renderSegs segs rs = .ok (literalText segs) := by
    intro segs rs h
    induction segs with
    | nil => rfl
    | cons seg rest ih =>
      obtain ⟨s, rfl⟩ := h seg (List.mem_cons_self _ _)
      have hr := ih (fun x hx => h x (List.mem_cons_of_mem _ hx))
      simp [renderSegs, hr, literalText]
  constructor
  · intro s rs
    simp [executeTemplate, renderSegs, literalText]
  · intro segs rs h
    simp [executeTemplate, hrender segs rs h]

/-- C6 witness: the theorem applied to a concrete literal-only template. -/
theorem template_literal_roundtrip_witness :
    executeTemplate [.lit "hello ", .lit "world"] resolveRunA =
      .ok (.obj [("template", .str "hello world")]) := by
  have h := template_literal_roundtrip.2 [.lit "hello ", .lit "world"]
    resolveRunA (by
      intro seg hseg
      simp only [List.mem_cons, List.not_mem_nil, or_false] at hseg
      rcases hseg with rfl | rfl
      · exact ⟨_, rfl⟩
      · exact ⟨_, rfl⟩)
  simpa [literalText] using h

/-- C1: the HTTP node executor's output is exactly
`{response: {status, statusText, ok, headers, body, duration, size}}`,
and the body field is the client's raw response text stored as a string -
never parsed as JSON, whatever the response contains. -/
theorem http_body_is_raw_string
    (client : HttpRequest → HttpResponseData) (req : HttpRequest) :
    executeHttpNode client req = JValue.obj [("response", JValue.obj
      [ ("status", .num (client req).status)
      , ("statusText", .str (client req).statusText)
      , ("ok", .bool (decide (200 ≤ (client req).status ∧
          (client req).status < 300)))
      , ("headers", .obj ((client req).headers.map (fun p => (p.1, .str p.2))))
      , ("body", .str (client req).body)
      , ("duration", .num (client req).duration)
      , ("size", .num (client req).size) ])]
    ∧ walkPath [.key "response", .key "body"] (executeHttpNode client req) =
        .ok (.str (client req).body) := by
  constructor
  · rfl
  · simp [executeHttpNode, walkPath, List.lookup]
